import Mathlib

/-!
Verification development for the TOC-translation pipeline
(`batch_03_toc.py` together with its helpers in `_utils.py`).

The Python code is shallowly embedded: strings are `String` / `List Char`,
the network backends (Ollama and the secondary DeepSeek API) are abstract
oracles passed as function arguments, the filesystem artifacts are explicit
state values, and every fallible operation returns `Option`.
-/

namespace PdfToc

/-! ### Python string primitives

Python `str.strip` / regex `\s` treat the Unicode whitespace characters
below as space.  The set is the standard CPython whitespace set. -/

def pySpaceChars : List Char :=
  [' ', '\t', '\n', '\x0b', '\x0c', '\r',
   '\x1c', '\x1d', '\x1e', '\x1f', '\u0085',
   ' ', ' ',
   ' ', ' ', ' ', ' ', ' ', ' ',
   ' ', ' ', ' ', ' ', ' ',
   ' ', ' ', ' ', ' ', '　']

def isPySpace (c : Char) : Bool := pySpaceChars.contains c

/-- Python `str.lstrip()` on a character list. -/
def lstripL (l : List Char) : List Char := l.dropWhile isPySpace

/-- Python `str.rstrip()` on a character list
(`List.rdropWhile p l` is `(l.reverse.dropWhile p).reverse`). -/
def rstripL (l : List Char) : List Char := l.rdropWhile isPySpace

/-- Python `str.strip()` on a character list. -/
def stripL (l : List Char) : List Char := rstripL (lstripL l)

def pyStrip (s : String) : String := String.mk (stripL s.data)

def pyLstrip (s : String) : String := String.mk (lstripL s.data)

def pyRstrip (s : String) : String := String.mk (rstripL s.data)

/-- Python `str.rstrip('。')`: remove trailing ideographic full stops. -/
def rstripDotL (l : List Char) : List Char :=
  l.rdropWhile (fun c => c = '。')

def pyRstripDot (s : String) : String := String.mk (rstripDotL s.data)

/-- Python truthiness-based `a or b` on strings. -/
def strOr (a b : String) : String := if a = "" then b else a

/-- Python `'\n' in s`. -/
def containsNl (s : String) : Bool := s.data.contains '\n'

/-- Python `s.replace('\n', ' ')`. -/
def replaceNl (s : String) : String :=
  String.mk (s.data.map (fun c => if c = '\n' then ' ' else c))

/-- Python `s.isdigit()` restricted to ASCII digits (the numbering tokens
of the parser are ASCII). -/
def pyIsDigit (s : String) : Bool :=
  s.data ≠ [] && s.data.all Char.isDigit

/-- Value of an all-ASCII-digit string, Python `int(s)`. -/
def digitsToNat (l : List Char) : Nat :=
  l.foldl (fun acc c => acc * 10 + (c.toNat - '0'.toNat)) 0

/-- Substring test: does `pat` occur contiguously in `l`?  (Python
`re.search` of a literal pattern.) -/
def containsSubL (pat : List Char) : List Char → Bool
  | [] => pat.isPrefixOf []
  | c :: cs => pat.isPrefixOf (c :: cs) || containsSubL pat cs

def containsSub (s pat : String) : Bool := containsSubL pat.data s.data

/-- Search helper for a regex `p.*q`: starting from the current position,
is there an occurrence of `q` with no newline strictly before it?
(`.` does not match `'\n'` in Python.) -/
def findBeforeNl (q : List Char) : List Char → Bool
  | [] => q.isPrefixOf []
  | c :: cs => q.isPrefixOf (c :: cs) || (c ≠ '\n' && findBeforeNl q cs)

/-- Regex `p.*q` searched anywhere in the text (Python `re.search`). -/
def dotStarSearch (p q : List Char) : List Char → Bool
  | [] => p.isPrefixOf [] && findBeforeNl q []
  | c :: cs =>
    (p.isPrefixOf (c :: cs) && findBeforeNl q ((c :: cs).drop p.length))
      || dotStarSearch p q cs

/-! ### `deep_clean_title` (`_utils.py`)

`re.sub(r'&#(?:x0?[0A9D]|10|13);', ' ', text)` replaces the ten literal
entities `&#10; &#13; &#xA; &#x0; &#x9; &#xD; &#x0A; &#x00; &#x09; &#x0D;`
by a space; the scan is leftmost, non-overlapping. -/

def entitySub : List Char → List Char
  | '&' :: '#' :: '1' :: '0' :: ';' :: r => ' ' :: entitySub r
  | '&' :: '#' :: '1' :: '3' :: ';' :: r => ' ' :: entitySub r
  | '&' :: '#' :: 'x' :: 'A' :: ';' :: r => ' ' :: entitySub r
  | '&' :: '#' :: 'x' :: '9' :: ';' :: r => ' ' :: entitySub r
  | '&' :: '#' :: 'x' :: 'D' :: ';' :: r => ' ' :: entitySub r
  | '&' :: '#' :: 'x' :: '0' :: ';' :: r => ' ' :: entitySub r
  | '&' :: '#' :: 'x' :: '0' :: 'A' :: ';' :: r => ' ' :: entitySub r
  | '&' :: '#' :: 'x' :: '0' :: '0' :: ';' :: r => ' ' :: entitySub r
  | '&' :: '#' :: 'x' :: '0' :: '9' :: ';' :: r => ' ' :: entitySub r
  | '&' :: '#' :: 'x' :: '0' :: 'D' :: ';' :: r => ' ' :: entitySub r
  | c :: r => c :: entitySub r
  | [] => []

/-- The per-character replacements of `deep_clean_title`: real newlines and
tabs to space, no-break and thin spaces to space, zero-width space and BOM
dropped.  (The surrogate filter of the source cannot fire on valid Unicode
scalar values, which is all `Char` can hold.) -/
def charClean : List Char → List Char
  | [] => []
  | c :: r =>
    if c = '\n' ∨ c = '\r' ∨ c = '\t' ∨ c = ' ' ∨ c = ' ' then
      ' ' :: charClean r
    else if c = '​' ∨ c = '﻿' then charClean r
    else c :: charClean r

/-- `re.sub(r'\s+', ' ', text)`: collapse whitespace runs to one space.
The flag records whether the scanner is inside a run whose space has
already been emitted. -/
def collapseGo : Bool → List Char → List Char
  | _, [] => []
  | inRun, c :: r =>
    if isPySpace c then
      if inRun then collapseGo true r else ' ' :: collapseGo true r
    else c :: collapseGo false r

def collapseWs (l : List Char) : List Char := collapseGo false l

def deepCleanL (l : List Char) : List Char :=
  stripL (collapseWs (charClean (entitySub l)))

/-- `deep_clean_title` from `_utils.py`. -/
def deep_clean_title (s : String) : String :=
  if s = "" then "" else String.mk (deepCleanL s.data)

/-! ### `parse_toc_triple` (`batch_03_toc.py`)

The prefix keywords are the keys of `PREFIX_TRANSLATIONS`, sorted by
length descending (Python's stable sort keeps dictionary insertion order
inside each length class). -/

def kwStrings : List String :=
  ["key finding", "case study", "experiment",
   "appendix", "exercise", "incident",
   "chapter", "section", "element",
   "lesson", "try it", "moudle",
   "table", "phase",
   "part", "unit", "step",
   "lab"]

def kwList : List (List Char) := kwStrings.map String.data

/-- Case-insensitive literal prefix match (regex `re.IGNORECASE` over the
ASCII keywords): returns the rest of the input after the keyword. -/
def stripCI : List Char → List Char → Option (List Char)
  | [], l => some l
  | _ :: _, [] => none
  | k :: ks, c :: cs => if c.toLower = k then stripCI ks cs else none

/-- One keyword against `rf'^{kw}\s+(?=\S)'`: keyword, at least one
whitespace, then (after the greedy whitespace run) a non-whitespace
character.  Returns the text after `match.end()` and the final `lstrip()`
(a no-op there, as the run was consumed greedily). -/
def matchKwOne (kw l : List Char) : Option (List Char) :=
  match stripCI kw l with
  | none => none
  | some rest =>
    if rest.takeWhile isPySpace ≠ [] ∧ rest.dropWhile isPySpace ≠ [] then
      some (rest.dropWhile isPySpace)
    else none

def matchKwGo : List (List Char) → List Char → Option (List Char × List Char)
  | [], _ => none
  | kw :: ks, l =>
    match matchKwOne kw l with
    | some body => some (kw, body)
    | none => matchKwGo ks l

def matchKw (l : List Char) : Option (List Char × List Char) := matchKwGo kwList l

/-- Trailing context `(?:\s+|:|：|$)` of the numbering regex: returns the
text after `match.end()` on success (the whitespace alternative is greedy
and tried first). -/
def sepAfter : List Char → Option (List Char)
  | [] => some []
  | c :: cs =>
    if isPySpace c then some ((c :: cs).dropWhile isPySpace)
    else if c = ':' ∨ c = '：' then some cs
    else none

def isUpperAZ (c : Char) : Bool := 'A' ≤ c && c ≤ 'Z'

/-- Greedy `(?:\.\d+)*` with explicit fuel (each group consumes at least
two characters, so the input length is always enough fuel): consume as
many `.digits` groups as possible, returning the consumed characters and
the rest.  (Shorter quantifier matches would leave the scanner before a
`'.'`, which the trailing context never accepts, so only the greedy
parse can succeed.) -/
def dotGroupsF : Nat → List Char → List Char × List Char
  | 0, l => ([], l)
  | fuel + 1, l =>
    match l with
    | '.' :: cs =>
      let ds := cs.takeWhile Char.isDigit
      if ds = [] then ([], '.' :: cs)
      else
        let r := dotGroupsF fuel (cs.drop ds.length)
        ('.' :: (ds ++ r.1), r.2)
    | l => ([], l)

def dotGroups (l : List Char) : List Char × List Char := dotGroupsF l.length l

/-- `^\d+` -/
def numAlt1 (l : List Char) : Option (List Char × List Char) :=
  let ds := l.takeWhile Char.isDigit
  if ds = [] then none
  else (sepAfter (l.drop ds.length)).map (fun r => (ds, r))

/-- `^\d+(?:\.\d+)+` -/
def numAlt2 (l : List Char) : Option (List Char × List Char) :=
  let ds := l.takeWhile Char.isDigit
  if ds = [] then none
  else
    let (g, rest) := dotGroups (l.drop ds.length)
    if g = [] then none
    else (sepAfter rest).map (fun r => (ds ++ g, r))

/-- `^\d+-\d+` -/
def numAlt3 (l : List Char) : Option (List Char × List Char) :=
  let ds := l.takeWhile Char.isDigit
  if ds = [] then none
  else
    match l.drop ds.length with
    | '-' :: cs =>
      let ds2 := cs.takeWhile Char.isDigit
      if ds2 = [] then none
      else (sepAfter (cs.drop ds2.length)).map
        (fun r => (ds ++ '-' :: ds2, r))
    | _ => none

/-- `^[A-Z]+\d+` -/
def numAlt4 (l : List Char) : Option (List Char × List Char) :=
  let us := l.takeWhile isUpperAZ
  if us = [] then none
  else
    let rest := l.drop us.length
    let ds := rest.takeWhile Char.isDigit
    if ds = [] then none
    else (sepAfter (rest.drop ds.length)).map (fun r => (us ++ ds, r))

/-- `^[A-Z]+(?:\.\d+)+` -/
def numAlt5 (l : List Char) : Option (List Char × List Char) :=
  let us := l.takeWhile isUpperAZ
  if us = [] then none
  else
    let (g, rest) := dotGroups (l.drop us.length)
    if g = [] then none
    else (sepAfter rest).map (fun r => (us ++ g, r))

/-- `^[A-Z]+-\d+(?:\.\d+)*` -/
def numAlt6 (l : List Char) : Option (List Char × List Char) :=
  let us := l.takeWhile isUpperAZ
  if us = [] then none
  else
    match l.drop us.length with
    | '-' :: cs =>
      let ds := cs.takeWhile Char.isDigit
      if ds = [] then none
      else
        let (g, rest) := dotGroups (cs.drop ds.length)
        (sepAfter rest).map (fun r => (us ++ '-' :: (ds ++ g), r))
    | _ => none

/-- `^[A-Z]` -/
def numAlt7 : List Char → Option (List Char × List Char)
  | c :: cs => if isUpperAZ c then (sepAfter cs).map (fun r => ([c], r)) else none
  | [] => none

/-- Python `token.rstrip('.')` (the matched tokens never end in a dot,
but the source applies it, so we do too). -/
def rstripDots (l : List Char) : List Char := l.rdropWhile (fun c => c = '.')

/-- The combined numbering regex
`^((\d+)|(\d+(?:\.\d+)+)|(\d+-\d+)|([A-Z]+\d+)|([A-Z]+(?:\.\d+)+)|([A-Z]+-\d+(?:\.\d+)*)|([A-Z]))(?:\s+|:|：|$)`
with its alternatives tried in order.  Returns
(`match.group(1).rstrip('.')`, text after `match.end()`). -/
def matchNum (l : List Char) : Option (List Char × List Char) :=
  match numAlt1 l with
  | some (t, r) => some (rstripDots t, r)
  | none =>
  match numAlt2 l with
  | some (t, r) => some (rstripDots t, r)
  | none =>
  match numAlt3 l with
  | some (t, r) => some (rstripDots t, r)
  | none =>
  match numAlt4 l with
  | some (t, r) => some (rstripDots t, r)
  | none =>
  match numAlt5 l with
  | some (t, r) => some (rstripDots t, r)
  | none =>
  match numAlt6 l with
  | some (t, r) => some (rstripDots t, r)
  | none =>
  match numAlt7 l with
  | some (t, r) => some (rstripDots t, r)
  | none => none

/-- After a numbering match: `lstrip()`, drop one leading `':'`/`'：'`
followed by `lstrip()`, final `strip()`. -/
def finishTitle (l : List Char) : List Char :=
  let t := lstripL l
  let t :=
    match t with
    | ':' :: r => lstripL r
    | '：' :: r => lstripL r
    | _ => t
  stripL t

def parseTriple (l0 : List Char) : List Char × List Char × List Char :=
  let l := stripL l0
  if l = [] then ([], [], [])
  else
    match matchKw l with
    | some (kw, remaining) =>
      match matchNum remaining with
      | some (tok, after) => (kw, tok, finishTitle after)
      | none => ([], [], l)
    | none =>
      match matchNum l with
      | some (tok, after) => ([], tok, finishTitle after)
      | none => ([], [], l)

/-- `parse_toc_triple` from `batch_03_toc.py`: split one heading line into
(prefix type, prefix number, bare title). -/
def parse_toc_triple (s : String) : String × String × String :=
  let r := parseTriple s.data
  (String.mk r.1, String.mk r.2.1, String.mk r.2.2)

/-! ### `_num_to_zh` and `_fmt_prefix` (`batch_03_toc.py`) -/

def numToZhTable : List (Nat × String) :=
  [(0, "零"), (1, "一"), (2, "二"), (3, "三"), (4, "四"), (5, "五"),
   (6, "六"), (7, "七"), (8, "八"), (9, "九"), (10, "十")]

def zhDigit (n : Nat) : String :=
  ((numToZhTable.find? (fun p => p.1 = n)).map Prod.snd).getD ""

/-- `_num_to_zh`: Chinese number words for 0–99 (the source indexes its
table only for arguments below 100; the guarding caller ensures this). -/
def numToZh (n : Nat) : String :=
  if n ≤ 10 then zhDigit n
  else
    (if n / 10 = 1 then "" else zhDigit (n / 10)) ++ "十" ++
      (if n % 10 ≠ 0 then zhDigit (n % 10) else "")

/-- The `PREFIX_TRANSLATIONS` pairs used by the generic branch of
`_fmt_prefix` (the `part`/`chapter`/`section` entries are shadowed by the
special cases above the lookup). -/
def prefixTranslations : List (String × String × String) :=
  [("part", "第", "部分"), ("chapter", "第 ", " 章"), ("section", "第", "节"),
   ("appendix", "附录", ""), ("exercise", "练习", ""), ("lesson", "课程", ""),
   ("unit", "第", "单元"), ("table", "表", ""), ("lab", "实验", ""),
   ("case study", "案例研究", ""), ("experiment", "实验", ""),
   ("incident", "事件", ""), ("try it", "试试看", ""),
   ("key finding", "关键发现", ""), ("phase", "第", "阶段"),
   ("step", "第", "步"), ("element", "要素", ""), ("moudle", "模块", "")]

def pyLower (s : String) : String := String.mk (s.data.map Char.toLower)

/-- Python `f'{n:02d}'` for naturals. -/
def pad2 (n : Nat) : String :=
  if n < 10 then "0" ++ toString n else toString n

/-- `_fmt_prefix` from `batch_03_toc.py`: deterministically render a
(prefix type, prefix number) pair as the localized numbering string. -/
def fmtPfx (typ num : String) : String :=
  if typ = "" ∧ num ≠ "" then num
  else
    let tl := pyLower typ
    if tl = "part" then
      if pyIsDigit num ∧ digitsToNat num.data < 100 then
        "第" ++ numToZh (digitsToNat num.data) ++ "部分"
      else "第" ++ num ++ "部分"
    else if tl = "chapter" then
      if pyIsDigit num then "第" ++ pad2 (digitsToNat num.data) ++ "章"
      else "第" ++ num ++ "章"
    else if tl = "section" then "第" ++ num ++ "节"
    else
      match prefixTranslations.find? (fun p => p.1 = tl) with
      | some (_, pre, suf) => pre ++ num ++ suf
      | none => pyStrip (typ ++ " " ++ num)

/-! ### `_strip_model_prefix` (`batch_03_toc.py`)

Each `re.sub` is anchored at the line start and is modelled as: if the
pattern matches a prefix of the text, drop that prefix.  All patterns end
in `[：:]\s*`. -/

/-- `[：:]\s*` at the head. -/
def colonWs : List Char → Option (List Char)
  | c :: cs => if c = ':' ∨ c = '：' then some (cs.dropWhile isPySpace) else none
  | [] => none

/-- `^第\s*[0-9]+\s*章[：:]\s*` -/
def pfxPat1 (l : List Char) : Option (List Char) :=
  match l with
  | '第' :: r =>
    let r := r.dropWhile isPySpace
    let ds := r.takeWhile Char.isDigit
    if ds = [] then none
    else
      match (r.drop ds.length).dropWhile isPySpace with
      | '章' :: r2 => colonWs r2
      | _ => none
  | _ => none

def zhNumChars : List Char := ['一', '二', '两', '三', '四', '五', '六', '七', '八', '九', '十']

/-- `^第[一二两三四五六七八九十]+部分[：:]\s*` -/
def pfxPat2 (l : List Char) : Option (List Char) :=
  match l with
  | '第' :: r =>
    let zs := r.takeWhile (fun c => zhNumChars.contains c)
    if zs = [] then none
    else
      match r.drop zs.length with
      | '部' :: '分' :: r2 => colonWs r2
      | _ => none
  | _ => none

/-- `^附录\s*[0-9A-Z]+[：:]\s*` -/
def pfxPat3 (l : List Char) : Option (List Char) :=
  match l with
  | '附' :: '录' :: r =>
    let r := r.dropWhile isPySpace
    let xs := r.takeWhile (fun c => Char.isDigit c || isUpperAZ c)
    if xs = [] then none else colonWs (r.drop xs.length)
  | _ => none

/-- `^第\s*[0-9]+(?:\.[0-9]+)?\s*节[：:]\s*` -/
def pfxPat4 (l : List Char) : Option (List Char) :=
  match l with
  | '第' :: r =>
    let r := r.dropWhile isPySpace
    let ds := r.takeWhile Char.isDigit
    if ds = [] then none
    else
      let r2 :=
        match r.drop ds.length with
        | '.' :: cs =>
          let ds2 := cs.takeWhile Char.isDigit
          if ds2 = [] then r.drop ds.length else cs.drop ds2.length
        | other => other
      match r2.dropWhile isPySpace with
      | '节' :: r3 => colonWs r3
      | _ => none
  | _ => none

/-- `^第\s*[0-9]+(?:\-[0-9]+)?\s*课[：:]\s*` -/
def pfxPat5 (l : List Char) : Option (List Char) :=
  match l with
  | '第' :: r =>
    let r := r.dropWhile isPySpace
    let ds := r.takeWhile Char.isDigit
    if ds = [] then none
    else
      let r2 :=
        match r.drop ds.length with
        | '-' :: cs =>
          let ds2 := cs.takeWhile Char.isDigit
          if ds2 = [] then r.drop ds.length else cs.drop ds2.length
        | other => other
      match r2.dropWhile isPySpace with
      | '课' :: r3 => colonWs r3
      | _ => none
  | _ => none

/-- `^练习\s*[0-9]+(?:\-[0-9]+)?[：:]\s*` -/
def pfxPat6 (l : List Char) : Option (List Char) :=
  match l with
  | '练' :: '习' :: r =>
    let r := r.dropWhile isPySpace
    let ds := r.takeWhile Char.isDigit
    if ds = [] then none
    else
      let r2 :=
        match r.drop ds.length with
        | '-' :: cs =>
          let ds2 := cs.takeWhile Char.isDigit
          if ds2 = [] then r.drop ds.length else cs.drop ds2.length
        | other => other
      colonWs r2
  | _ => none

/-- `^课后应用[：:]\s*` -/
def pfxPat7 (l : List Char) : Option (List Char) :=
  match l with
  | '课' :: '后' :: '应' :: '用' :: r => colonWs r
  | _ => none

def applyPat (f : List Char → Option (List Char)) (l : List Char) : List Char :=
  match f l with
  | some r => r
  | none => l

/-- `_strip_model_prefix` from `batch_03_toc.py`: strip a numbering prefix
the model may have echoed into its output, then `strip()`. -/
def stripModelPfx (s : String) : String :=
  let l := s.data
  let l := applyPat pfxPat1 l
  let l := applyPat pfxPat2 l
  let l := applyPat pfxPat3 l
  let l := applyPat pfxPat4 l
  let l := applyPat pfxPat5 l
  let l := applyPat pfxPat6 l
  let l := applyPat pfxPat7 l
  String.mk (stripL l)

/-! ### Explanatory-note detection (`_utils.py`) -/

/-- `has_explanatory_note_re`: `re.search` of the alternation of the
active indicator patterns.  Twelve are literal substrings; two use `.*`
(`.` not matching a newline). -/
def noteReL (l : List Char) : Bool :=
  if l = [] then false
  else
    containsSubL "译".data l || containsSubL "原文".data l ||
    containsSubL "建议".data l || containsSubL "根据".data l ||
    containsSubL "纠正".data l || containsSubL "注：".data l ||
    containsSubL "备注：".data l || containsSubL "上下文".data l ||
    dotStarSearch "无需".data "说明".data l ||
    containsSubL "若未明确指示".data l ||
    dotStarSearch "按照".data "指导".data l ||
    containsSubL "如需".data l || containsSubL "不必考虑".data l ||
    containsSubL "简化为".data l

def has_explanatory_note_re (s : String) : Bool := noteReL s.data

/-- A Python value returned by `has_explanatory_note`: either an actual
`bool`, or the function object `has_explained_content_llm` itself (the
source returns the function without calling it). -/
inductive NoteResult where
  | b (v : Bool)
  | llmFunc
deriving DecidableEq

/-- Python truthiness of a `NoteResult`: a function object is truthy. -/
def noteTruthy : NoteResult → Bool
  | .b v => v
  | .llmFunc => true

/-- `has_explanatory_note` from `_utils.py`.  A single-line source with a
multi-line translation returns `True`; otherwise a regex hit returns the
`has_explained_content_llm` function object itself, uncalled; otherwise
`False`. -/
def has_explanatory_note (src trans : String) : NoteResult :=
  if ¬ containsNl src ∧ containsNl trans then .b true
  else if has_explanatory_note_re (replaceNl trans) then .llmFunc
  else .b false

/-! ### `ollama_chat` (`batch_03_toc.py`)

The network request is an oracle `att : Nat → Option String`: `att i` is
the outcome of attempt `i` (`none` = the request raised).  The run is
total — an exception is absorbed by the `except` branch, never propagated
— and returns the reply text, the number of attempts made, and the list
of the sleep durations (seconds) taken between attempts. -/

def MAX_RETRIES : Nat := 3

/-- The `for i in range(MAX_RETRIES)` loop from iteration `i` on; the
fuel argument is the number of remaining iterations, `maxR - i`. -/
def chatGo (att : Nat → Option String) (maxR : Nat) : Nat → Nat → String × Nat × List Nat
  | _, 0 => ("", 0, [])
  | i, fuel + 1 =>
    match att i with
    | some c => (c, i + 1, List.replicate i 3)
    | none =>
      if i < maxR - 1 then chatGo att maxR (i + 1) fuel
      else ("", maxR, List.replicate (maxR - 1) 3)

/-- `ollama_chat`: up to `MAX_RETRIES` attempts, `time.sleep(3)` between
attempts, empty string on exhaustion. -/
def ollama_chat (att : Nat → Option String) : String × Nat × List Nat :=
  chatGo att MAX_RETRIES 0 MAX_RETRIES

/-! ### `translate_line_by_line` (`batch_03_toc.py`)

The two backends are oracles.  `oll i text` is the already-unwrapped
result of the `ollama_chat` call for slot `i` (`ollama_chat` itself
absorbs its failures and yields the empty string on exhaustion, so its
result is a plain `String`).  `ds text` is the result of
`translate_with_deepseek_api`, whose `except` branch has no `return`
statement: on a failed request the function yields Python `None`,
modelled as `none`.  The caller immediately evaluates `trans.strip()`
on that result, so a `none` from the escalation oracle raises an
`AttributeError` out of the loop — the slot computation and the whole
`translate_line_by_line` call are modelled as returning `none` then. -/

/-- The body of the per-line loop for one unfilled slot `i` holding
source line `line`; `none` is the `AttributeError` raised by
`trans.strip()` when the escalated `translate_with_deepseek_api` call
returned `None`. -/
def computeSlot (oll : Nat → String → String) (ds : String → Option String)
    (i : Nat) (line : String) : Option String :=
  let eng := pyStrip line
  let t := parse_toc_triple eng
  let typ := t.1
  let num := t.2.1
  let pureEng := t.2.2
  let r :=
    if num = "" then
      let trans := oll i eng
      let tr := if noteTruthy (has_explanatory_note eng trans) then ds eng else some trans
      match tr with
      | none => none
      | some trans => some (deep_clean_title (strOr (pyStrip trans) eng))
    else
      if pureEng ≠ "" then
        let trans := oll i pureEng
        let tr :=
          if noteTruthy (has_explanatory_note pureEng trans) then ds pureEng else some trans
        match tr with
        | none => none
        | some trans =>
          some (fmtPfx typ num ++ " " ++
            stripModelPfx (deep_clean_title (strOr (pyStrip trans) pureEng)))
      else some (fmtPfx typ num)
  r.map (fun v => pyStrip (pyRstripDot v))

/-- Restoring pre-existing translations: slot `i` gets the `rstrip`-ped
`i`-th line of the translation file when present (a restored empty line
leaves the slot empty, exactly as the `if t` guard does). -/
def restoreSlots (total : Nat) (existed : Option (List String)) : List String :=
  match existed with
  | none => List.replicate total ""
  | some ex =>
    (List.range total).map (fun i => if i < ex.length then pyRstrip (ex.getD i "") else "")

/-- The main loop over slots `i, i+1, ...` with current results `st`:
a non-empty slot is skipped, an empty one is computed and written back.
Returns the final results (`none` when a slot computation raised — the
loop stops there and no list is returned), the indices whose
computation was run, and the successive in-memory states at each
file-persistence point (a raising slot is never assigned, so nothing is
written for it). -/
def runSlots (oll : Nat → String → String) (ds : String → Option String) :
    List String → Nat → List String →
      Option (List String) × List Nat × List (List String)
  | st, _, [] => (some st, [], [])
  | st, i, line :: rest =>
    if st.getD i "" ≠ "" then runSlots oll ds st (i + 1) rest
    else
      match computeSlot oll ds i line with
      | none => (none, [i], [])
      | some v =>
        let st2 := st.set i v
        let r := runSlots oll ds st2 (i + 1) rest
        (r.1, i :: r.2.1, st2 :: r.2.2)

/-- `translate_line_by_line`: results of translating `lines`, resuming
from the translation-file contents `existed` (`none` as `existed` = file
absent).  The result is `none` when an escalated secondary call returned
Python `None` and the `AttributeError` propagated: the caller then
receives no list at all. -/
def translate_line_by_line (oll : Nat → String → String)
    (ds : String → Option String) (lines : List String)
    (existed : Option (List String)) : Option (List String) :=
  (runSlots oll ds (restoreSlots lines.length existed) 0 lines).1

/-- The indices whose slot computation was run. -/
def computedIdxs (oll : Nat → String → String) (ds : String → Option String)
    (lines : List String) (existed : Option (List String)) : List Nat :=
  (runSlots oll ds (restoreSlots lines.length existed) 0 lines).2.1

/-- The in-memory result sequences at the persistence points (one write
of the whole sequence after every computed slot). -/
def persistedStates (oll : Nat → String → String) (ds : String → Option String)
    (lines : List String) (existed : Option (List String)) : List (List String) :=
  (runSlots oll ds (restoreSlots lines.length existed) 0 lines).2.2

/-! ### The bookmark tree (`export_toc_to_xml` / `pdf_import_toc_xml`)

`OTree` is one `ITEM` element: attributes NAME/PAGE/LEVEL plus child
items.  `TocEntry` is one `(level, title, page)` triple of the flattened
outline. -/

structure TocEntry where
  level : Nat
  title : String
  page : Int
deriving DecidableEq, Repr

inductive OTree where
  | node (level : Nat) (title : String) (page : Int) (children : List OTree)

def OTree.levelOf : OTree → Nat
  | .node l _ _ _ => l

def OTree.childrenOf : OTree → List OTree
  | .node _ _ _ c => c

mutual

/-- The pre-order extraction of `pdf_import_toc_xml` (`extract`): every
`ITEM` contributes its stored LEVEL/NAME/PAGE, then its children. -/
def flattenTree : OTree → List TocEntry
  | .node l t p cs => ⟨l, t, p⟩ :: flattenForest cs
termination_by structural t => t

def flattenForest : List OTree → List TocEntry
  | [] => []
  | t :: ts => flattenTree t ++ flattenForest ts
termination_by structural ts => ts

end

/-- An open element on the construction stack: the attributes of the
`ITEM` plus the children appended to it so far.  The bottom of the stack
is the `PDF_Bookmarks` root, modelled as a frame of level 0. -/
structure Frame where
  level : Nat
  title : String
  page : Int
  children : List OTree

def closeFrame (f : Frame) : OTree := .node f.level f.title f.page f.children

def addChild (f : Frame) (t : OTree) : Frame :=
  { f with children := f.children ++ [t] }

def rootFrame : Frame := ⟨0, "", 0, []⟩

/-- Close all still-open frames into the bottom (root) frame and return
the root's children: this realizes all the `stack[-1].append(item)`
mutations of the source in a pure state.  Fuel = stack length (each step
pops one frame). -/
def closeAllF : Nat → List Frame → List OTree
  | _, [] => []
  | _, [f] => f.children
  | 0, _ :: _ :: _ => []
  | fuel + 1, f :: g :: rest => closeAllF fuel (addChild g (closeFrame f) :: rest)

def closeAll (st : List Frame) : List OTree := closeAllF st.length st

/-- `while len(stack) > level: stack.pop()` — the fuel is the stack
length, which bounds the number of pops.  Popping the last frame loses
the root, which makes the following `stack[-1]` raise `IndexError`; that
is `none` here. -/
def popLoopCode (fuel : Nat) (st : List Frame) (lvl : Nat) : Option (List Frame) :=
  match fuel with
  | 0 => some st
  | fuel + 1 =>
    if lvl < st.length then
      match st with
      | f :: g :: rest => popLoopCode fuel (addChild g (closeFrame f) :: rest) lvl
      | _ => none
    else some st

/-- One entry of the `export_toc_to_xml` loop: clean the title, pop by
the stack-length condition, append to the new top, push. -/
def stepCode (st : List Frame) (e : TocEntry) : Option (List Frame) :=
  match popLoopCode st.length st e.level with
  | some (g :: rest) =>
    some (⟨e.level, deep_clean_title e.title, e.page, []⟩ :: g :: rest)
  | _ => none

/-- The stack construction of `export_toc_to_xml` (its lines 503–517):
fold the entries into the stack and close everything into the root. -/
def rebuildCode (es : List TocEntry) : Option (List OTree) :=
  (es.foldlM stepCode [rootFrame]).map closeAll

/-- Modelled from the spec: the Bookmark Extractor algorithm as the spec
words it — "for each entry, pop the stack while its top has level ≥
entry's level, attach the entry as a child of the new top, push it".
Identical to `popLoopCode` except for the pop condition. -/
def popLoopSpec (fuel : Nat) (st : List Frame) (lvl : Nat) : Option (List Frame) :=
  match fuel with
  | 0 => some st
  | fuel + 1 =>
    match st with
    | f :: g :: rest =>
      if lvl ≤ f.level then popLoopSpec fuel (addChild g (closeFrame f) :: rest) lvl
      else some st
    | [f] => if lvl ≤ f.level then none else some st
    | [] => none

/-- Modelled from the spec: one entry of the spec's level-keyed-stack
algorithm (same node contents as `stepCode`, only the pop rule differs). -/
def stepSpec (st : List Frame) (e : TocEntry) : Option (List Frame) :=
  match popLoopSpec st.length st e.level with
  | some (g :: rest) =>
    some (⟨e.level, deep_clean_title e.title, e.page, []⟩ :: g :: rest)
  | _ => none

/-- Modelled from the spec: the whole spec-worded stack construction. -/
def rebuildSpec (es : List TocEntry) : Option (List OTree) :=
  (es.foldlM stepSpec [rootFrame]).map closeAll

/-- Level/page projection of an entry (claim C2 speaks of order, level
and page being preserved). -/
def entryLP (e : TocEntry) : Nat × Int := (e.level, e.page)

/-- The flattening of the outline a stack would produce if closed now. -/
def flatClose (st : List Frame) : List TocEntry := flattenForest (closeAll st)

/-- `countdown k = [k, k-1, ..., 1, 0]`: the levels of a well-formed
construction stack, top first (root frame at level 0). -/
def countdown : Nat → List Nat
  | 0 => [0]
  | k + 1 => (k + 1) :: countdown k

def stackLevels (st : List Frame) : List Nat := st.map Frame.level

/-- Well-formed level sequences (with `p` the preceding entry's level,
initially 0): each level is at least 1 and climbs by at most one step. -/
def wfLevels : Nat → List TocEntry → Bool
  | _, [] => true
  | p, e :: rest => decide (1 ≤ e.level) && decide (e.level ≤ p + 1) && wfLevels e.level rest

/-- The entry as the rebuilt tree stores it: title deep-cleaned. -/
def cleanEntry (e : TocEntry) : TocEntry :=
  ⟨e.level, deep_clean_title e.title, e.page⟩

/-! ### `is_file_recent` and `build_files_config` (`batch_03_toc.py`)

The five per-document files are modelled by their ages in hours
(`none` = the file does not exist). -/

def HOURS_RECENT : Nat := 2400

structure ArtifactState where
  toc_xml : Option Nat
  content : Option Nat
  promptF : Option Nat
  translation : Option Nat
  trans_xml : Option Nat
deriving DecidableEq, Repr

/-- `is_file_recent`: the file exists and its age is within the window. -/
def is_file_recent : Option Nat → Bool
  | none => false
  | some age => age ≤ HOURS_RECENT

/-- The staleness sweep of `build_files_config`: if any of the four
critical files exists and is not recent, delete every file of the set
(the `trans_xml` output file included; each `unlink` is modelled as
succeeding — the source ignores unlink errors). -/
def build_files_config (st : ArtifactState) : ArtifactState :=
  let anyExpired :=
    [st.toc_xml, st.content, st.promptF, st.translation].any
      (fun f => f.isSome && ! is_file_recent f)
  if anyExpired then ⟨none, none, none, none, none⟩ else st

/-! ## Lemmas about the Python string primitives -/

theorem lstripL_idem (l : List Char) : lstripL (lstripL l) = lstripL l :=
  List.dropWhile_idempotent _ _

theorem rstripL_idem (l : List Char) : rstripL (rstripL l) = rstripL l :=
  List.rdropWhile_idempotent _ _

theorem dropWhile_eq_self_of_prefix {p : Char → Bool} {u v : List Char}
    (hp : v <+: u) (hu : u.dropWhile p = u) : v.dropWhile p = v := by
  cases v with
  | nil => simp
  | cons a w =>
    obtain ⟨t, ht⟩ := hp
    have ha : ¬ p a = true := by
      intro hpa
      rw [← ht, List.cons_append, List.dropWhile_cons, if_pos hpa] at hu
      have h1 := congrArg List.length hu
      have h2 := (List.dropWhile_suffix (l := w ++ t) (p := p)).length_le
      simp only [List.length_cons] at h1
      omega
    rw [List.dropWhile_cons, if_neg ha]

theorem lstripL_stripL (l : List Char) : lstripL (stripL l) = stripL l :=
  dropWhile_eq_self_of_prefix (List.rdropWhile_prefix _ _) (lstripL_idem l)

theorem stripL_idem (l : List Char) : stripL (stripL l) = stripL l := by
  show rstripL (lstripL (stripL l)) = stripL l
  rw [lstripL_stripL]
  exact rstripL_idem (lstripL l)

theorem pyStrip_mk (l : List Char) : pyStrip (String.mk l) = String.mk (stripL l) := rfl

theorem pyStrip_idem (s : String) : pyStrip (pyStrip s) = pyStrip s :=
  congrArg String.mk (stripL_idem s.data)

/-! ## Lemmas about `parse_toc_triple` -/

theorem matchKwGo_mem :
    ∀ ks l kw b, matchKwGo ks l = some (kw, b) → kw ∈ ks := by
  intro ks
  induction ks with
  | nil => intro l kw b h; simp [matchKwGo] at h
  | cons k ks ih =>
    intro l kw b h
    unfold matchKwGo at h
    cases hk : matchKwOne k l with
    | some body =>
      rw [hk] at h
      simp only [Option.some.injEq, Prod.mk.injEq] at h
      exact h.1 ▸ List.mem_cons_self k ks
    | none =>
      rw [hk] at h
      exact List.mem_cons_of_mem k (ih l kw b h)

theorem kwList_ne_nil : ∀ kw ∈ kwList, kw ≠ [] := by decide

theorem matchKw_ne_nil {l kw b} (h : matchKw l = some (kw, b)) : kw ≠ [] :=
  kwList_ne_nil kw (matchKwGo_mem kwList l kw b h)

theorem takeWhile_ne_nil_head {p : Char → Bool} {l : List Char}
    (h : l.takeWhile p ≠ []) : ∃ c ts, l.takeWhile p = c :: ts ∧ p c := by
  cases hc : l.takeWhile p with
  | nil => exact absurd hc h
  | cons c ts =>
    have hmem : c ∈ l.takeWhile p := by
      rw [hc]; exact List.mem_cons_self c ts
    exact ⟨c, ts, rfl, List.mem_takeWhile_imp hmem⟩

theorem rstripDots_ne_nil {t : List Char} {c : Char}
    (hc : c ∈ t) (hne : ¬ c = '.') : rstripDots t ≠ [] := by
  intro h
  rw [rstripDots, List.rdropWhile_eq_nil_iff] at h
  have := h c hc
  simp only [decide_eq_true_eq] at this
  exact hne this

/-- A token head satisfying the digit or uppercase class is not a dot. -/
theorem headClass_not_dot {c : Char} (h : Char.isDigit c ∨ isUpperAZ c) :
    ¬ c = '.' := by
  intro hc
  subst hc
  rcases h with h | h
  · exact absurd h (by decide)
  · exact absurd h (by decide)

theorem numAlt1_head {l t r} (h : numAlt1 l = some (t, r)) :
    ∃ c ts, t = c :: ts ∧ (Char.isDigit c ∨ isUpperAZ c) := by
  unfold numAlt1 at h
  dsimp only at h
  split at h
  · simp at h
  · next hds =>
    rw [Option.map_eq_some'] at h
    obtain ⟨r2, -, hpr⟩ := h
    obtain ⟨c, ts, hcts, hc⟩ := takeWhile_ne_nil_head hds
    injection hpr with h1 h2
    exact ⟨c, ts, h1 ▸ hcts, Or.inl hc⟩

theorem numAlt2_head {l t r} (h : numAlt2 l = some (t, r)) :
    ∃ c ts, t = c :: ts ∧ (Char.isDigit c ∨ isUpperAZ c) := by
  unfold numAlt2 at h
  dsimp only at h
  split at h
  · simp at h
  · next hds =>
    split at h
    · simp at h
    · rw [Option.map_eq_some'] at h
      obtain ⟨r2, -, hpr⟩ := h
      obtain ⟨c, ts, hcts, hc⟩ := takeWhile_ne_nil_head hds
      injection hpr with h1 h2
      exact ⟨c, ts ++ (dotGroups (List.drop (List.takeWhile Char.isDigit l).length l)).1,
        by rw [← h1, hcts, List.cons_append], Or.inl hc⟩

theorem numAlt3_head {l t r} (h : numAlt3 l = some (t, r)) :
    ∃ c ts, t = c :: ts ∧ (Char.isDigit c ∨ isUpperAZ c) := by
  unfold numAlt3 at h
  dsimp only at h
  split at h
  · simp at h
  · next hds =>
    split at h
    · next cs hcs =>
      split at h
      · simp at h
      · rw [Option.map_eq_some'] at h
        obtain ⟨r2, -, hpr⟩ := h
        obtain ⟨c, ts, hcts, hc⟩ := takeWhile_ne_nil_head hds
        injection hpr with h1 h2
        exact ⟨c, ts ++ '-' :: List.takeWhile Char.isDigit cs,
          by rw [← h1, hcts, List.cons_append], Or.inl hc⟩
    · simp at h

theorem numAlt4_head {l t r} (h : numAlt4 l = some (t, r)) :
    ∃ c ts, t = c :: ts ∧ (Char.isDigit c ∨ isUpperAZ c) := by
  unfold numAlt4 at h
  dsimp only at h
  split at h
  · simp at h
  · next hus =>
    split at h
    · simp at h
    · rw [Option.map_eq_some'] at h
      obtain ⟨r2, -, hpr⟩ := h
      obtain ⟨c, ts, hcts, hc⟩ := takeWhile_ne_nil_head hus
      injection hpr with h1 h2
      exact ⟨c, ts ++ ((l.drop (l.takeWhile isUpperAZ).length).takeWhile Char.isDigit),
        by rw [← h1, hcts, List.cons_append], Or.inr hc⟩

theorem numAlt5_head {l t r} (h : numAlt5 l = some (t, r)) :
    ∃ c ts, t = c :: ts ∧ (Char.isDigit c ∨ isUpperAZ c) := by
  unfold numAlt5 at h
  dsimp only at h
  split at h
  · simp at h
  · next hus =>
    split at h
    · simp at h
    · rw [Option.map_eq_some'] at h
      obtain ⟨r2, -, hpr⟩ := h
      obtain ⟨c, ts, hcts, hc⟩ := takeWhile_ne_nil_head hus
      injection hpr with h1 h2
      exact ⟨c, ts ++ (dotGroups (List.drop (List.takeWhile isUpperAZ l).length l)).1,
        by rw [← h1, hcts, List.cons_append], Or.inr hc⟩

theorem numAlt6_head {l t r} (h : numAlt6 l = some (t, r)) :
    ∃ c ts, t = c :: ts ∧ (Char.isDigit c ∨ isUpperAZ c) := by
  unfold numAlt6 at h
  dsimp only at h
  split at h
  · simp at h
  · next hus =>
    split at h
    · next cs hcs =>
      split at h
      · simp at h
      · next hds =>
        rw [Option.map_eq_some'] at h
        obtain ⟨r2, -, hpr⟩ := h
        obtain ⟨c, ts, hcts, hc⟩ := takeWhile_ne_nil_head hus
        injection hpr with h1 h2
        exact ⟨c, ts ++ '-' :: (cs.takeWhile Char.isDigit ++
            (dotGroups (cs.drop (cs.takeWhile Char.isDigit).length)).1),
          by rw [← h1, hcts, List.cons_append], Or.inr hc⟩
    · simp at h

theorem numAlt7_head {l t r} (h : numAlt7 l = some (t, r)) :
    ∃ c ts, t = c :: ts ∧ (Char.isDigit c ∨ isUpperAZ c) := by
  unfold numAlt7 at h
  split at h
  · next c cs =>
    split at h
    · next hc =>
      rw [Option.map_eq_some'] at h
      obtain ⟨r2, -, hpr⟩ := h
      injection hpr with h1 h2
      exact ⟨c, [], h1 ▸ rfl, Or.inr hc⟩
    · simp at h
  · simp at h

/-- Every alternative of the numbering regex yields a token that starts
with a digit or an uppercase letter — never a bare run of dots — so
`rstrip('.')` cannot empty it. -/
theorem matchNum_tok_ne_nil {l tok r} (h : matchNum l = some (tok, r)) :
    tok ≠ [] := by
  have finish : ∀ {t : List Char},
      (∃ c ts, t = c :: ts ∧ (Char.isDigit c ∨ isUpperAZ c)) →
      rstripDots t ≠ [] := by
    rintro t ⟨c, ts, hcts, hc⟩
    exact rstripDots_ne_nil (hcts ▸ List.mem_cons_self c ts) (headClass_not_dot hc)
  unfold matchNum at h
  cases h1 : numAlt1 l with
  | some p =>
    obtain ⟨t, rr⟩ := p
    rw [h1] at h
    injection h with h
    injection h with ha hb
    exact ha ▸ finish (numAlt1_head h1)
  | none =>
  rw [h1] at h
  cases h2 : numAlt2 l with
  | some p =>
    obtain ⟨t, rr⟩ := p
    rw [h2] at h
    injection h with h
    injection h with ha hb
    exact ha ▸ finish (numAlt2_head h2)
  | none =>
  rw [h2] at h
  cases h3 : numAlt3 l with
  | some p =>
    obtain ⟨t, rr⟩ := p
    rw [h3] at h
    injection h with h
    injection h with ha hb
    exact ha ▸ finish (numAlt3_head h3)
  | none =>
  rw [h3] at h
  cases h4 : numAlt4 l with
  | some p =>
    obtain ⟨t, rr⟩ := p
    rw [h4] at h
    injection h with h
    injection h with ha hb
    exact ha ▸ finish (numAlt4_head h4)
  | none =>
  rw [h4] at h
  cases h5 : numAlt5 l with
  | some p =>
    obtain ⟨t, rr⟩ := p
    rw [h5] at h
    injection h with h
    injection h with ha hb
    exact ha ▸ finish (numAlt5_head h5)
  | none =>
  rw [h5] at h
  cases h6 : numAlt6 l with
  | some p =>
    obtain ⟨t, rr⟩ := p
    rw [h6] at h
    injection h with h
    injection h with ha hb
    exact ha ▸ finish (numAlt6_head h6)
  | none =>
  rw [h6] at h
  cases h7 : numAlt7 l with
  | some p =>
    obtain ⟨t, rr⟩ := p
    rw [h7] at h
    injection h with h
    injection h with ha hb
    exact ha ▸ finish (numAlt7_head h7)
  | none =>
    rw [h7] at h
    simp at h

theorem finishTitle_eq_strip (l : List Char) : ∃ x, finishTitle l = stripL x := by
  unfold finishTitle
  dsimp only
  exact ⟨_, rfl⟩

theorem finishTitle_stripped (l : List Char) :
    stripL (finishTitle l) = finishTitle l := by
  obtain ⟨x, hx⟩ := finishTitle_eq_strip l
  rw [hx, stripL_idem]

/-- If the parser reports neither a prefix type nor a prefix number, the
bare title is the stripped input line. -/
theorem parseTriple_empty_empty :
    ∀ {l0 x : List Char}, parseTriple l0 = ([], [], x) → x = stripL l0 := by
  intro l0 x h
  unfold parseTriple at h
  dsimp only at h
  split at h
  · next hl =>
    injection h with h1 h2
    injection h2 with h2a h2b
    subst h2b
    exact hl.symm
  · next hl =>
    split at h
    · next kw remaining hkw =>
      split at h
      · next tok after hnum =>
        injection h with h1 h2
        exact absurd h1 (matchKw_ne_nil hkw)
      · next hnum =>
        injection h with h1 h2
        injection h2 with h2a h2b
        exact h2b.symm
    · next hkw =>
      split at h
      · next tok after hnum =>
        injection h with h1 h2
        injection h2 with h2a h2b
        exact absurd h2a (matchNum_tok_ne_nil hnum)
      · next hnum =>
        injection h with h1 h2
        injection h2 with h2a h2b
        exact h2b.symm

/-- Every bare title the parser produces is already `strip()`-normal. -/
theorem parseTriple_bare_stripped (l0 : List Char) :
    stripL (parseTriple l0).2.2 = (parseTriple l0).2.2 := by
  unfold parseTriple
  dsimp only
  split
  · rfl
  · next hl =>
    split
    · next kw remaining hkw =>
      split
      · next tok after hnum => exact finishTitle_stripped after
      · next hnum => exact stripL_idem l0
    · next hkw =>
      split
      · next tok after hnum => exact finishTitle_stripped after
      · next hnum => exact stripL_idem l0

theorem mk_eq_empty {a : List Char} (h : String.mk a = "") : a = [] := by
  have := congrArg String.data h
  simpa using this

/-- String-level version of `parseTriple_empty_empty`. -/
theorem parse_empty_empty_str {s : String}
    (h1 : (parse_toc_triple s).1 = "") (h2 : (parse_toc_triple s).2.1 = "") :
    parse_toc_triple s = ("", "", pyStrip s) := by
  rcases hpt : parseTriple s.data with ⟨a, b, c⟩
  have e1 : parse_toc_triple s = (String.mk a, String.mk b, String.mk c) := by
    unfold parse_toc_triple
    rw [hpt]
  rw [e1] at h1 h2 ⊢
  have ha : a = [] := mk_eq_empty h1
  have hb : b = [] := mk_eq_empty h2
  have hc : c = stripL s.data := by
    rw [ha, hb] at hpt
    exact parseTriple_empty_empty hpt
  rw [ha, hb, hc]
  rfl

theorem parse_bare_stripped_str (s : String) :
    pyStrip (parse_toc_triple s).2.2 = (parse_toc_triple s).2.2 := by
  rcases hpt : parseTriple s.data with ⟨a, b, c⟩
  have e1 : parse_toc_triple s = (String.mk a, String.mk b, String.mk c) := by
    unfold parse_toc_triple
    rw [hpt]
  rw [e1]
  show String.mk (stripL c) = String.mk c
  have hb := parseTriple_bare_stripped s.data
  rw [hpt] at hb
  rw [hb]

/-- C7: `parse_toc_triple` is a total Lean function (so the embedded code
never raises); its bare title is always `strip()`-normal; when it finds
neither a keyword-with-numbering nor a leading numbering token, it
returns an all-empty prefix with the (whitespace-normalized) input text
as the bare title; and re-parsing a bare title in which the parser again
finds no structure returns an empty prefix and the identical bare
title. -/
theorem parse_total_idempotent (s : String) :
    pyStrip (parse_toc_triple s).2.2 = (parse_toc_triple s).2.2 ∧
    ((parse_toc_triple s).1 = "" → (parse_toc_triple s).2.1 = "" →
      parse_toc_triple s = ("", "", pyStrip s)) ∧
    ((parse_toc_triple (parse_toc_triple s).2.2).1 = "" →
      (parse_toc_triple (parse_toc_triple s).2.2).2.1 = "" →
      parse_toc_triple (parse_toc_triple s).2.2 =
        ("", "", (parse_toc_triple s).2.2)) := by
  refine ⟨parse_bare_stripped_str s, fun h1 h2 => parse_empty_empty_str h1 h2,
    fun h1 h2 => ?_⟩
  have h := parse_empty_empty_str h1 h2
  rw [parse_bare_stripped_str s] at h
  exact h

/-- Witness for C7 at a line with no structure ("Chapter Seven": keyword
but no numbering token) and at its own bare title. -/
theorem parse_total_idempotent_witness :
    parse_toc_triple "Chapter Seven" = ("", "", pyStrip "Chapter Seven") ∧
    parse_toc_triple (parse_toc_triple "Chapter Seven").2.2 =
      ("", "", (parse_toc_triple "Chapter Seven").2.2) :=
  ⟨(parse_total_idempotent "Chapter Seven").2.1 (by decide) (by decide),
   (parse_total_idempotent "Chapter Seven").2.2 (by decide) (by decide)⟩

/-! ## Lemmas about the line-translation loop -/

theorem getD_set_ne {l : List String} {i j : Nat} {v : String} (h : i ≠ j) :
    (l.set i v).getD j "" = l.getD j "" := by
  simp [List.getD_eq_getElem?_getD, List.getElem?_set_ne h]

theorem getD_set_self {l : List String} {i : Nat} {v : String} (h : i < l.length) :
    (l.set i v).getD i "" = v := by
  simp [List.getD_eq_getElem?_getD, List.getElem?_set_self, h]

theorem restoreSlots_length (total : Nat) (existed : Option (List String)) :
    (restoreSlots total existed).length = total := by
  cases existed with
  | none => simp [restoreSlots]
  | some ex => simp [restoreSlots]

/-- The restored content of slot `i`: the `rstrip`-ped `i`-th line of the
translation file (the empty string when the file is shorter or absent). -/
theorem restoreSlots_getD (total : Nat) (ex : List String) {i : Nat}
    (h : i < total) :
    (restoreSlots total (some ex)).getD i "" = pyRstrip (ex.getD i "") := by
  unfold restoreSlots
  rw [List.getD_eq_getElem?_getD, List.getElem?_map, List.getElem?_range h]
  simp only [Option.map_some', Option.getD_some]
  split
  · rfl
  · next hx =>
    have : ex.getD i "" = "" := by
      rw [List.getD_eq_getElem?_getD, List.getElem?_eq_none (by omega)]
      rfl
    rw [this]
    rfl

theorem note_empty_trans_false (src : String) :
    noteTruthy (has_explanatory_note src "") = false := by
  simp [has_explanatory_note, containsNl, replaceNl, has_explanatory_note_re,
    noteReL, noteTruthy]

theorem runSlots_length (oll : Nat → String → String) (ds : String → Option String) :
    ∀ (rest st : List String) (i : Nat),
      (∀ res, (runSlots oll ds st i rest).1 = some res → res.length = st.length) ∧
      ∀ w ∈ (runSlots oll ds st i rest).2.2, w.length = st.length := by
  intro rest
  induction rest with
  | nil =>
    intro st i
    constructor
    · intro res h
      injection h with h
      rw [← h]
    · intro w hw
      simp [runSlots] at hw
  | cons line rest ih =>
    intro st i
    unfold runSlots
    split
    · exact ih st (i + 1)
    · cases hc : computeSlot oll ds i line with
      | none =>
        constructor
        · intro res h
          simp at h
        · intro w hw
          simp at hw
      | some v =>
        dsimp only
        constructor
        · intro res h
          rw [(ih (st.set i v) (i + 1)).1 res h, List.length_set]
        · intro w hw
          rcases List.mem_cons.mp hw with h | h
          · rw [h, List.length_set]
          · rw [(ih (st.set i v) (i + 1)).2 w h, List.length_set]

/-- A slot that is already non-empty is never overwritten: it keeps its
content in the final result (when the run completes) and in every state
written at a persistence point (also in runs that abort). -/
theorem runSlots_getD_filled (oll : Nat → String → String) (ds : String → Option String) :
    ∀ (rest st : List String) (i j : Nat), st.getD j "" ≠ "" →
      (∀ res, (runSlots oll ds st i rest).1 = some res →
        res.getD j "" = st.getD j "") ∧
      ∀ w ∈ (runSlots oll ds st i rest).2.2, w.getD j "" = st.getD j "" := by
  intro rest
  induction rest with
  | nil =>
    intro st i j _
    constructor
    · intro res h
      injection h with h
      rw [← h]
    · intro w hw
      simp [runSlots] at hw
  | cons line rest ih =>
    intro st i j hj
    unfold runSlots
    split
    · exact ih st (i + 1) j hj
    · next hguard =>
      have hij : i ≠ j := fun he => hguard (he ▸ hj)
      cases hc : computeSlot oll ds i line with
      | none =>
        constructor
        · intro res h
          simp at h
        · intro w hw
          simp at hw
      | some v =>
        dsimp only
        have hj2 : (st.set i v).getD j "" ≠ "" := by
          rw [getD_set_ne hij]
          exact hj
        constructor
        · intro res h
          rw [(ih (st.set i v) (i + 1) j hj2).1 res h, getD_set_ne hij]
        · intro w hw
          rcases List.mem_cons.mp hw with h | h
          · rw [h, getD_set_ne hij]
          · rw [(ih (st.set i v) (i + 1) j hj2).2 w h, getD_set_ne hij]

/-- Every index whose computation was run — in completed and aborted
runs alike — is an in-range slot that was empty when it was reached. -/
theorem runSlots_called_sub (oll : Nat → String → String) (ds : String → Option String) :
    ∀ (rest st : List String) (i : Nat), ∀ j ∈ (runSlots oll ds st i rest).2.1,
      ∃ k, k < rest.length ∧ j = i + k ∧ st.getD (i + k) "" = "" := by
  intro rest
  induction rest with
  | nil =>
    intro st i j hj
    simp [runSlots] at hj
  | cons line rest ih =>
    intro st i j hj
    unfold runSlots at hj
    split at hj
    · obtain ⟨k, hk, hjk, hemp⟩ := ih st (i + 1) j hj
      refine ⟨k + 1, by simpa using hk, by omega, ?_⟩
      have harr : i + (k + 1) = i + 1 + k := by omega
      rw [harr]
      exact hemp
    · next hguard =>
      have hempty0 : st.getD i "" = "" := by
        by_cases h : st.getD i "" = ""
        · exact h
        · exact absurd h hguard
      cases hc : computeSlot oll ds i line with
      | none =>
        rw [hc] at hj
        have hji : j = i := by simpa using hj
        exact ⟨0, by simp, by omega, by simpa using hempty0⟩
      | some v =>
        rw [hc] at hj
        dsimp only at hj
        rcases List.mem_cons.mp hj with rfl | h
        · exact ⟨0, by simp, by omega, by simpa using hempty0⟩
        · obtain ⟨k, hk, hjk, hemp⟩ := ih (st.set i v) (i + 1) j h
          refine ⟨k + 1, by simpa using hk, by omega, ?_⟩
          have harr : i + (k + 1) = i + 1 + k := by omega
          rw [harr]
          rw [getD_set_ne (by omega)] at hemp
          exact hemp

/-- When the run completes, the computed-index list is, in order,
exactly the set of in-range slots the restoration left empty. -/
theorem runSlots_called_eq_complete (oll : Nat → String → String)
    (ds : String → Option String) :
    ∀ (rest st : List String) (i : Nat) (res : List String),
      (runSlots oll ds st i rest).1 = some res →
      (runSlots oll ds st i rest).2.1 =
        ((List.range rest.length).map (fun k => i + k)).filter
          (fun j => st.getD j "" == "") := by
  intro rest
  induction rest with
  | nil => intro st i res _; rfl
  | cons line rest ih =>
    intro st i res hres
    have hmapshift :
        (List.range (rest.length + 1)).map (fun k => i + k) =
          i :: (List.range rest.length).map (fun k => i + 1 + k) := by
      rw [List.range_succ_eq_map, List.map_cons, List.map_map]
      have h0 : i + 0 = i := by omega
      rw [h0]
      exact congrArg (fun l => i :: l)
        (List.map_congr_left (fun k _ => by
          simp only [Function.comp_apply]
          omega))
    by_cases hguard : st.getD i "" ≠ ""
    · have hcond : (st.getD i "" == "") = false := by simpa using hguard
      unfold runSlots at hres ⊢
      rw [if_pos hguard] at hres ⊢
      rw [ih st (i + 1) res hres, List.length_cons, hmapshift,
        List.filter_cons, hcond]
      simp
    · have hempty0 : st.getD i "" = "" := by
        by_cases h : st.getD i "" = ""
        · exact h
        · exact absurd h hguard
      have hcond : (st.getD i "" == "") = true := by simpa using hempty0
      unfold runSlots at hres ⊢
      rw [if_neg hguard] at hres ⊢
      cases hc : computeSlot oll ds i line with
      | none =>
        rw [hc] at hres
        simp at hres
      | some v =>
        rw [hc] at hres
        dsimp only at hres ⊢
        rw [ih (st.set i v) (i + 1) res hres, List.length_cons, hmapshift,
          List.filter_cons, hcond]
        simp only [cond_true]
        refine congrArg (fun l => i :: l) ?_
        refine List.filter_congr ?_
        intro j hj
        obtain ⟨k, -, rfl⟩ := List.mem_map.mp hj
        rw [getD_set_ne (by omega)]

/-- With the primary backend failing on every line, `ollama_chat`'s
empty-string fallback never triggers the explanatory-note escalation,
so the secondary oracle is never consulted and every slot computation
completes. -/
theorem computeSlot_oll_empty_some (ds : String → Option String) (i : Nat)
    (line : String) :
    ∃ v, computeSlot (fun _ _ => "") ds i line = some v := by
  unfold computeSlot
  dsimp only
  split
  · rw [note_empty_trans_false]
    exact ⟨_, rfl⟩
  · split
    · rw [note_empty_trans_false]
      exact ⟨_, rfl⟩
    · exact ⟨_, rfl⟩

/-- If every slot computation yields a value, the loop completes and
returns a list. -/
theorem runSlots_complete (oll : Nat → String → String) (ds : String → Option String)
    (hall : ∀ (j : Nat) (l : String), ∃ v, computeSlot oll ds j l = some v) :
    ∀ (rest st : List String) (i : Nat),
      ∃ res, (runSlots oll ds st i rest).1 = some res := by
  intro rest
  induction rest with
  | nil => intro st i; exact ⟨st, rfl⟩
  | cons line rest ih =>
    intro st i
    unfold runSlots
    split
    · exact ih st (i + 1)
    · obtain ⟨v, hv⟩ := hall i line
      rw [hv]
      dsimp only
      exact ih (st.set i v) (i + 1)

/-- Counterexample to C1 as frozen: `translate_line_by_line` does not
always return a list.  When the primary call succeeds with
indicator-laden output (here `根据上下文`), the detector escalates, and
when the `translate_with_deepseek_api` request then fails, that function
returns Python `None` (its `except` branch has no `return`); the
caller's `trans.strip()` raises `AttributeError` out of
`translate_line_by_line` — modelled as `none` — so no result list of
any length is produced. -/
theorem translate_length_counterexample :
    translate_line_by_line (fun _ _ => "根据上下文") (fun _ => none)
      ["Hello"] none = none := rfl

/-- C1 (amended): whenever `translate_line_by_line` returns a result
list — that is, whenever every escalated secondary call that is
actually made returns a string rather than Python `None` — that list's
length equals the input list's length; this holds in particular when
every network translation call fails, because the primary calls then
yield the empty fallback string, the escalation never fires, the
secondary backend is never consulted, and a full-length list is
returned (fallbacks fill the slots rather than skipping, merging or
splitting); and at every persistence point — in completed and aborted
runs alike — the in-memory result sequence has exactly the input
length. -/
theorem translate_length_invariant (oll : Nat → String → String)
    (ds : String → Option String) (lines : List String)
    (existed : Option (List String)) :
    (∀ res, translate_line_by_line oll ds lines existed = some res →
      res.length = lines.length) ∧
    (persistedStates oll ds lines existed).all
      (fun w => w.length == lines.length) = true ∧
    (∃ res, translate_line_by_line (fun _ _ => "") ds lines existed = some res ∧
      res.length = lines.length) := by
  have hr := restoreSlots_length lines.length existed
  have h := runSlots_length oll ds lines (restoreSlots lines.length existed) 0
  refine ⟨?_, ?_, ?_⟩
  · intro res hres
    rw [h.1 res hres, hr]
  · rw [persistedStates, List.all_eq_true]
    intro w hw
    simpa using (h.2 w hw).trans hr
  · obtain ⟨res, hres⟩ := runSlots_complete (fun _ _ => "") ds
      (computeSlot_oll_empty_some ds) lines (restoreSlots lines.length existed) 0
    refine ⟨res, hres, ?_⟩
    rw [(runSlots_length (fun _ _ => "") ds lines
      (restoreSlots lines.length existed) 0).1 res hres, hr]

/-- Witness for C1 at the all-failing-backends world: every primary call
fails (empty fallback) and every secondary call would fail (`none`); the
run still completes with a two-entry result for two input lines, and
every persisted state has length two. -/
theorem translate_length_invariant_witness :
    (["第07章 Distributed Consensus", "Hello"] : List String).length =
      (["Chapter 7: Distributed Consensus", "Hello"] : List String).length ∧
    (persistedStates (fun _ _ => "") (fun _ => none)
      ["Chapter 7: Distributed Consensus", "Hello"] none).all
      (fun w => w.length ==
        (["Chapter 7: Distributed Consensus", "Hello"] : List String).length) = true :=
  ⟨(translate_length_invariant (fun _ _ => "") (fun _ => none)
      ["Chapter 7: Distributed Consensus", "Hello"] none).1
      ["第07章 Distributed Consensus", "Hello"] (by decide),
   (translate_length_invariant (fun _ _ => "") (fun _ => none)
      ["Chapter 7: Distributed Consensus", "Hello"] none).2.1⟩

/-- C6: re-running against a partially filled translation file leaves
every restored non-empty slot exactly as restored — in the returned
list when the run completes, and in every state written at a
persistence point even when a later escalation aborts the run — never
runs the slot computation for it, computes only slots the restoration
left empty, and, when the run completes, computes exactly those. -/
theorem resume_preserves_filled_slots (oll : Nat → String → String)
    (ds : String → Option String) (lines ex : List String) (i : Nat)
    (hi : i < lines.length) (hne : pyRstrip (ex.getD i "") ≠ "") :
    (∀ res, translate_line_by_line oll ds lines (some ex) = some res →
      res.getD i "" = pyRstrip (ex.getD i "")) ∧
    (∀ w ∈ persistedStates oll ds lines (some ex),
      w.getD i "" = pyRstrip (ex.getD i "")) ∧
    i ∉ computedIdxs oll ds lines (some ex) ∧
    (∀ j ∈ computedIdxs oll ds lines (some ex),
      j < lines.length ∧ pyRstrip (ex.getD j "") = "") ∧
    (∀ res, translate_line_by_line oll ds lines (some ex) = some res →
      computedIdxs oll ds lines (some ex) =
        (List.range lines.length).filter
          (fun j => pyRstrip (ex.getD j "") == "")) := by
  have hrst : ∀ j, j < lines.length →
      (restoreSlots lines.length (some ex)).getD j "" = pyRstrip (ex.getD j "") :=
    fun j hj => restoreSlots_getD lines.length ex hj
  have hfilled : (restoreSlots lines.length (some ex)).getD i "" ≠ "" := by
    rw [hrst i hi]
    exact hne
  have hfl := runSlots_getD_filled oll ds lines
    (restoreSlots lines.length (some ex)) 0 i hfilled
  refine ⟨?_, ?_, ?_, ?_, ?_⟩
  · intro res hres
    rw [translate_line_by_line] at hres
    rw [hfl.1 res hres, hrst i hi]
  · intro w hw
    rw [persistedStates] at hw
    rw [hfl.2 w hw, hrst i hi]
  · rw [computedIdxs]
    intro hmem
    obtain ⟨k, hk, hik, hempty⟩ := runSlots_called_sub oll ds lines _ 0 i hmem
    rw [Nat.zero_add] at hik
    subst hik
    rw [Nat.zero_add, hrst i hi] at hempty
    exact hne hempty
  · intro j hj
    rw [computedIdxs] at hj
    obtain ⟨k, hk, hjk, hempty⟩ := runSlots_called_sub oll ds lines _ 0 j hj
    rw [Nat.zero_add] at hjk
    subst hjk
    rw [Nat.zero_add] at hempty
    refine ⟨hk, ?_⟩
    rw [← hrst _ hk]
    exact hempty
  · intro res hres
    rw [translate_line_by_line] at hres
    rw [computedIdxs, runSlots_called_eq_complete oll ds lines _ 0 res hres]
    have hmap : (List.range lines.length).map (fun k => 0 + k) =
        List.range lines.length := by
      refine (List.map_congr_left (fun k _ => by simp)).trans (List.map_id _)
    rw [hmap]
    refine List.filter_congr ?_
    intro j hj
    rw [hrst j (List.mem_range.mp hj)]

/-- Witness for C6: translation file with slots 1 and 3 filled out of
four lines, a secondary oracle that would crash if consulted; slot 1 is
kept verbatim and exactly slots 0 and 2 are recomputed. -/
theorem resume_preserves_filled_slots_witness :
    (["X", "乙", "X", "丁"] : List String).getD 1 "" =
      pyRstrip ((["", "乙", "", "丁"] : List String).getD 1 "") ∧
    1 ∉ computedIdxs (fun _ _ => "X") (fun _ => none) ["Alpha", "Beta", "Gamma", "Delta"]
        (some ["", "乙", "", "丁"]) ∧
    computedIdxs (fun _ _ => "X") (fun _ => none) ["Alpha", "Beta", "Gamma", "Delta"]
        (some ["", "乙", "", "丁"]) =
      (List.range (["Alpha", "Beta", "Gamma", "Delta"] : List String).length).filter
        (fun j => pyRstrip ((["", "乙", "", "丁"] : List String).getD j "") == "") :=
  ⟨(resume_preserves_filled_slots (fun _ _ => "X") (fun _ => none)
      ["Alpha", "Beta", "Gamma", "Delta"] ["", "乙", "", "丁"] 1 (by decide) (by decide)).1
      ["X", "乙", "X", "丁"] (by decide),
   (resume_preserves_filled_slots (fun _ _ => "X") (fun _ => none)
      ["Alpha", "Beta", "Gamma", "Delta"] ["", "乙", "", "丁"] 1 (by decide) (by decide)).2.2.1,
   (resume_preserves_filled_slots (fun _ _ => "X") (fun _ => none)
      ["Alpha", "Beta", "Gamma", "Delta"] ["", "乙", "", "丁"] 1 (by decide) (by decide)).2.2.2.2
      ["X", "乙", "X", "丁"] (by decide)⟩

/-! ## Lemmas about the bookmark-tree stack construction -/

theorem flattenForest_append (a b : List OTree) :
    flattenForest (a ++ b) = flattenForest a ++ flattenForest b := by
  induction a with
  | nil => simp [flattenForest]
  | cons t ts ih => simp [flattenForest, ih]

theorem closeAll_cons_cons (f g : Frame) (rest : List Frame) :
    closeAll (f :: g :: rest) = closeAll (addChild g (closeFrame f) :: rest) := rfl

theorem flatClose_cons_cons (f g : Frame) (rest : List Frame) :
    flatClose (f :: g :: rest) = flatClose (addChild g (closeFrame f) :: rest) :=
  congrArg flattenForest (closeAll_cons_cons f g rest)

theorem flattenTree_closeFrame_addChild (g : Frame) (x : OTree) :
    flattenTree (closeFrame (addChild g x)) =
      flattenTree (closeFrame g) ++ flattenTree x := by
  show flattenTree (OTree.node g.level g.title g.page (g.children ++ [x])) = _
  rw [flattenTree, flattenForest_append]
  simp [flattenTree, flattenForest, closeFrame]

/-- Appending one more child to a frame appends that child's flattening
to the would-be flattening of the whole stack. -/
theorem flatClose_addChild :
    ∀ (rest : List Frame) (g : Frame) (x : OTree),
      flatClose (addChild g x :: rest) = flatClose (g :: rest) ++ flattenTree x := by
  intro rest
  induction rest with
  | nil =>
    intro g x
    show flattenForest (g.children ++ [x]) = flattenForest g.children ++ flattenTree x
    rw [flattenForest_append]
    simp [flattenForest, flattenTree]
  | cons r rs ih =>
    intro g x
    rw [flatClose_cons_cons, ih r (closeFrame (addChild g x)),
      flattenTree_closeFrame_addChild, ← List.append_assoc,
      ← ih r (closeFrame g), ← flatClose_cons_cons]

/-- Pushing a fresh childless frame appends exactly its own entry. -/
theorem flatClose_push (l : Nat) (t : String) (p : Int) (g : Frame)
    (rest : List Frame) :
    flatClose (⟨l, t, p, []⟩ :: g :: rest) =
      flatClose (g :: rest) ++ [⟨l, t, p⟩] := by
  rw [flatClose_cons_cons, flatClose_addChild]
  simp [closeFrame, flattenTree, flattenForest]

/-- The pop loop only restructures open frames: the flattening of the
stack is unchanged. -/
theorem popLoopCode_flatClose :
    ∀ (fuel : Nat) (st : List Frame) (lvl : Nat) (st' : List Frame),
      popLoopCode fuel st lvl = some st' → flatClose st' = flatClose st := by
  intro fuel
  induction fuel with
  | zero =>
    intro st lvl st' h
    injection h with h
    rw [h]
  | succ fuel ih =>
    intro st lvl st' h
    unfold popLoopCode at h
    split at h
    · split at h
      · next f g rest =>
        rw [ih _ lvl st' h, ← flatClose_cons_cons]
      · exact absurd h (by simp)
    · injection h with h
      rw [h]

/-- With a positive level and a non-empty stack, the pop loop always
succeeds and leaves a non-empty stack. -/
theorem popLoopCode_some :
    ∀ (fuel : Nat) (st : List Frame) (lvl : Nat), 1 ≤ lvl → st ≠ [] →
      ∃ g rest, popLoopCode fuel st lvl = some (g :: rest) := by
  intro fuel
  induction fuel with
  | zero =>
    intro st lvl _ hne
    cases st with
    | nil => exact absurd rfl hne
    | cons g rest => exact ⟨g, rest, rfl⟩
  | succ fuel ih =>
    intro st lvl h1 hne
    rcases st with _ | ⟨f, _ | ⟨g, rest⟩⟩
    · exact absurd rfl hne
    · refine ⟨f, [], ?_⟩
      simp only [popLoopCode, List.length_cons, List.length_nil]
      rw [if_neg (by omega)]
    · by_cases hl : lvl < (f :: g :: rest).length
      · obtain ⟨g', rest', hgr⟩ :=
          ih (addChild g (closeFrame f) :: rest) lvl h1 (by simp)
        refine ⟨g', rest', ?_⟩
        simp only [popLoopCode]
        rw [if_pos hl]
        exact hgr
      · refine ⟨f, g :: rest, ?_⟩
        simp only [popLoopCode]
        rw [if_neg hl]

/-- One step of the stack construction on a non-empty stack with a
positive level: it succeeds and appends the cleaned entry to the
stack's flattening. -/
theorem stepCode_flatClose {st : List Frame} {e : TocEntry}
    (h1 : 1 ≤ e.level) (hne : st ≠ []) :
    ∃ st2, stepCode st e = some st2 ∧ st2 ≠ [] ∧
      flatClose st2 = flatClose st ++ [cleanEntry e] := by
  obtain ⟨g, rest, hpop⟩ := popLoopCode_some st.length st e.level h1 hne
  refine ⟨⟨e.level, deep_clean_title e.title, e.page, []⟩ :: g :: rest, ?_, by simp, ?_⟩
  · rw [stepCode, hpop]
  · rw [flatClose_push, popLoopCode_flatClose _ _ _ _ hpop]
    rfl

theorem foldlM_stepCode :
    ∀ (es : List TocEntry) (st : List Frame), st ≠ [] →
      (∀ e ∈ es, 1 ≤ e.level) →
      ∃ stf, List.foldlM stepCode st es = some stf ∧ stf ≠ [] ∧
        flatClose stf = flatClose st ++ es.map cleanEntry := by
  intro es
  induction es with
  | nil =>
    intro st hne _
    exact ⟨st, rfl, hne, by simp⟩
  | cons e es ih =>
    intro st hne hlv
    obtain ⟨st2, hstep, hne2, hflat⟩ :=
      stepCode_flatClose (hlv e (List.mem_cons_self e es)) hne
    obtain ⟨stf, hfold, hnef, hflatf⟩ :=
      ih st2 hne2 (fun e' he' => hlv e' (List.mem_cons_of_mem e he'))
    refine ⟨stf, ?_, hnef, ?_⟩
    · rw [List.foldlM_cons, hstep]
      simpa using hfold
    · rw [hflatf, hflat]
      simp [List.append_assoc]

/-- The stack construction of `export_toc_to_xml`, run on any entry list
with levels ≥ 1, produces a tree whose `pdf_import_toc_xml` pre-order
flattening is the input sequence with each title deep-cleaned. -/
theorem rebuildCode_flatten {es : List TocEntry}
    (h : ∀ e ∈ es, 1 ≤ e.level) :
    (rebuildCode es).map flattenForest = some (es.map cleanEntry) := by
  obtain ⟨stf, hfold, -, hflat⟩ := foldlM_stepCode es [rootFrame] (by simp) h
  rw [rebuildCode, hfold, Option.map_some']
  refine congrArg some ?_
  have h0 : flatClose [rootFrame] = [] := rfl
  show flatClose stf = es.map cleanEntry
  rw [hflat, h0, List.nil_append]

/-- C2 (amended): for every outline tree whose node levels are ≥ 1 (the
data-model invariant), rebuilding from the flattened sequence with
`export_toc_to_xml`'s stack construction and re-flattening with
`pdf_import_toc_xml`'s pre-order extraction succeeds and preserves
order, level and page of every entry — the flattened sequence is
reproduced with each title deep-cleaned, hence exactly whenever every
title is already in deep-cleaned form (as holds for the canonical
snapshot tree, whose titles were cleaned when it was built). -/
theorem flatten_rebuild_flatten (T : List OTree)
    (hlvl : ∀ e ∈ flattenForest T, 1 ≤ e.level) :
    (rebuildCode (flattenForest T)).map flattenForest =
      some ((flattenForest T).map cleanEntry) ∧
    (rebuildCode (flattenForest T)).map (fun f => (flattenForest f).map entryLP) =
      some ((flattenForest T).map entryLP) ∧
    ((∀ e ∈ flattenForest T, deep_clean_title e.title = e.title) →
      (rebuildCode (flattenForest T)).map flattenForest =
        some (flattenForest T)) := by
  have h1 := rebuildCode_flatten hlvl
  have hmap : ∀ (hclean : ∀ e ∈ flattenForest T, deep_clean_title e.title = e.title),
      (flattenForest T).map cleanEntry = flattenForest T := by
    intro hclean
    refine (List.map_congr_left ?_).trans (List.map_id _)
    intro e he
    simp [cleanEntry, hclean e he]
  refine ⟨h1, ?_, fun hclean => ?_⟩
  · cases hrw : rebuildCode (flattenForest T) with
    | none => rw [hrw, Option.map_none'] at h1; exact absurd h1 (by simp)
    | some f =>
      have hf : flattenForest f = (flattenForest T).map cleanEntry := by
        rw [hrw, Option.map_some'] at h1
        injection h1
      rw [Option.map_some', hf, List.map_map]
      refine congrArg some (List.map_congr_left ?_)
      intro e _
      rfl
  · rw [h1, hmap hclean]

/-- Witness for C2 on a two-level tree with already-clean titles. -/
theorem flatten_rebuild_flatten_witness :
    (rebuildCode (flattenForest
        [OTree.node 1 "Intro" 5 [OTree.node 2 "Basics" 6 []]])).map flattenForest =
      some (flattenForest
        [OTree.node 1 "Intro" 5 [OTree.node 2 "Basics" 6 []]]) :=
  (flatten_rebuild_flatten
    [OTree.node 1 "Intro" 5 [OTree.node 2 "Basics" 6 []]] (by decide)).2.2 (by decide)

/-- Counterexample to C2 as frozen: for the one-node tree whose raw
title contains a newline, the rebuilt tree flattens to the deep-cleaned
title, not the original one; and a node of level 0 makes the stack
construction pop its own root and crash (modelled as `none`), so the
claim does not hold for *every* tree of levels/titles/pages. -/
theorem flatten_rebuild_counterexample :
    (rebuildCode (flattenForest [OTree.node 1 "a\nb" 3 []])).map flattenForest ≠
      some (flattenForest [OTree.node 1 "a\nb" 3 []]) ∧
    rebuildCode (flattenForest [OTree.node 0 "a" 1 []]) = none := by
  constructor
  · decide
  · rfl

/-! ## The stack-length pop rule versus the spec's level-keyed pop rule -/

theorem countdown_length (k : Nat) : (countdown k).length = k + 1 := by
  induction k with
  | zero => rfl
  | succ k ih => simp [countdown, ih]

theorem countdown_cons {lvl : Nat} (h : 1 ≤ lvl) :
    countdown lvl = lvl :: countdown (lvl - 1) := by
  cases lvl with
  | zero => omega
  | succ m => rfl

theorem stackLevels_addChild (g : Frame) (x : OTree) (rest : List Frame) :
    stackLevels (addChild g x :: rest) = stackLevels (g :: rest) := rfl

theorem popLoopCode_stop {fuel lvl : Nat} {st : List Frame}
    (h : ¬ lvl < st.length) : popLoopCode fuel st lvl = some st := by
  cases fuel with
  | zero => rfl
  | succ fuel =>
    show (if lvl < st.length then _ else some st) = some st
    rw [if_neg h]

theorem popLoopCode_cons_cons_pos {fuel lvl : Nat} {f g : Frame}
    {rest : List Frame} (h : lvl < (f :: g :: rest).length) :
    popLoopCode (fuel + 1) (f :: g :: rest) lvl =
      popLoopCode fuel (addChild g (closeFrame f) :: rest) lvl := by
  show (if lvl < (f :: g :: rest).length
      then popLoopCode fuel (addChild g (closeFrame f) :: rest) lvl
      else some (f :: g :: rest)) = _
  rw [if_pos h]

theorem popLoopSpec_cons_cons_pos {fuel lvl : Nat} {f g : Frame}
    {rest : List Frame} (h : lvl ≤ f.level) :
    popLoopSpec (fuel + 1) (f :: g :: rest) lvl =
      popLoopSpec fuel (addChild g (closeFrame f) :: rest) lvl := by
  show (if lvl ≤ f.level
      then popLoopSpec fuel (addChild g (closeFrame f) :: rest) lvl
      else some (f :: g :: rest)) = _
  rw [if_pos h]

theorem popLoopSpec_cons_cons_stop {fuel lvl : Nat} {f g : Frame}
    {rest : List Frame} (h : ¬ lvl ≤ f.level) :
    popLoopSpec (fuel + 1) (f :: g :: rest) lvl = some (f :: g :: rest) := by
  show (if lvl ≤ f.level
      then popLoopSpec fuel (addChild g (closeFrame f) :: rest) lvl
      else some (f :: g :: rest)) = _
  rw [if_neg h]

theorem popLoopSpec_singleton_stop {fuel lvl : Nat} {f : Frame}
    (h : ¬ lvl ≤ f.level) : popLoopSpec (fuel + 1) [f] lvl = some [f] := by
  show (if lvl ≤ f.level then none else some [f]) = _
  rw [if_neg h]

/-- On a stack whose levels are exactly `k, k-1, ..., 0`, the
stack-length pop condition of the source and the top-level pop condition
of the spec remove the same frames. -/
theorem popLoop_code_eq_spec :
    ∀ (k : Nat) (st : List Frame) (lvl : Nat),
      stackLevels st = countdown k → 1 ≤ lvl → lvl ≤ k + 1 →
      popLoopCode st.length st lvl = popLoopSpec st.length st lvl ∧
      ∃ st', popLoopCode st.length st lvl = some st' ∧
        stackLevels st' = countdown (lvl - 1) := by
  intro k
  induction k with
  | zero =>
    intro st lvl hst h1 h2
    have hlvl : lvl = 1 := by omega
    subst hlvl
    rcases st with _ | ⟨f, tail⟩
    · simp [stackLevels, countdown] at hst
    · obtain ⟨hf0, htl0⟩ : f.level = 0 ∧ List.map Frame.level tail = [] := by
        have h2 := hst
        simp only [stackLevels, countdown, List.map_cons, List.cons.injEq] at h2
        exact h2
      have htl : tail = [] := List.map_eq_nil_iff.mp htl0
      subst htl
      have hstop : ¬ (1 : Nat) < ([f] : List Frame).length := by
        simp
      refine ⟨?_, [f], popLoopCode_stop hstop, hst⟩
      rw [popLoopCode_stop hstop]
      show _ = popLoopSpec (0 + 1) [f] 1
      rw [popLoopSpec_singleton_stop (by omega)]
  | succ k ih =>
    intro k2 lvl hst h1 h2
    rcases k2 with _ | ⟨f, tail⟩
    · simp [stackLevels, countdown] at hst
    · obtain ⟨hfl, htail⟩ :
          f.level = k + 1 ∧ List.map Frame.level tail = countdown k := by
        have h2 := hst
        simp only [stackLevels, countdown, List.map_cons, List.cons.injEq] at h2
        exact h2
      have hrlen : tail.length = k + 1 := by
        have h := congrArg List.length htail
        simpa [stackLevels, countdown_length] using h
      rcases tail with _ | ⟨g, rest⟩
      · simp at hrlen
      · have hrl : rest.length = k := by simpa using hrlen
        by_cases hcase : lvl = k + 2
        · have hcc : ¬ lvl < (f :: g :: rest).length := by
            simp only [List.length_cons]
            omega
          have hcs : ¬ lvl ≤ f.level := by omega
          refine ⟨?_, f :: g :: rest, popLoopCode_stop hcc, ?_⟩
          · rw [popLoopCode_stop hcc]
            show _ = popLoopSpec ((f :: g :: rest).length) (f :: g :: rest) lvl
            have hlenshape : (f :: g :: rest).length = rest.length + 1 + 1 := by
              simp
            rw [hlenshape, popLoopSpec_cons_cons_stop hcs]
          · rw [hst, hcase]
            exact congrArg countdown (by omega)
        · have hle : lvl ≤ k + 1 := by omega
          have hst2 : stackLevels (addChild g (closeFrame f) :: rest) = countdown k :=
            htail
          have hpos_c : lvl < (f :: g :: rest).length := by
            simp only [List.length_cons]
            omega
          have hpos_s : lvl ≤ f.level := by omega
          obtain ⟨heq, st', hpop, hlv⟩ :=
            ih (addChild g (closeFrame f) :: rest) lvl hst2 h1 hle
          have hlen2 : (addChild g (closeFrame f) :: rest).length = rest.length + 1 := by
            simp
          rw [hlen2] at heq hpop
          have hlenshape : (f :: g :: rest).length = rest.length + 1 + 1 := by
            simp
          refine ⟨?_, st', ?_, hlv⟩
          · show popLoopCode ((f :: g :: rest).length) (f :: g :: rest) lvl =
              popLoopSpec ((f :: g :: rest).length) (f :: g :: rest) lvl
            rw [hlenshape, popLoopCode_cons_cons_pos hpos_c,
              popLoopSpec_cons_cons_pos hpos_s]
            exact heq
          · show popLoopCode ((f :: g :: rest).length) (f :: g :: rest) lvl = some st'
            rw [hlenshape, popLoopCode_cons_cons_pos hpos_c]
            exact hpop

/-- One construction step agrees between the two pop rules and keeps the
stack levels in countdown shape. -/
theorem step_code_eq_spec {st : List Frame} {e : TocEntry} {k : Nat}
    (hst : stackLevels st = countdown k) (h1 : 1 ≤ e.level)
    (h2 : e.level ≤ k + 1) :
    stepCode st e = stepSpec st e ∧
    ∃ st2, stepCode st e = some st2 ∧ stackLevels st2 = countdown e.level := by
  obtain ⟨heq, st', hpop, hlv⟩ := popLoop_code_eq_spec k st e.level hst h1 h2
  have hne : st' ≠ [] := by
    intro h
    rw [h] at hlv
    have := congrArg List.length hlv
    simp [stackLevels, countdown_length] at this
  rcases st' with _ | ⟨g, rest⟩
  · exact absurd rfl hne
  · constructor
    · rw [stepCode, stepSpec, hpop, ← heq, hpop]
    · refine ⟨⟨e.level, deep_clean_title e.title, e.page, []⟩ :: g :: rest, ?_, ?_⟩
      · rw [stepCode, hpop]
      · show e.level :: stackLevels (g :: rest) = countdown e.level
        rw [hlv, ← countdown_cons h1]

theorem foldlM_code_eq_spec :
    ∀ (es : List TocEntry) (k : Nat) (st : List Frame),
      stackLevels st = countdown k → wfLevels k es = true →
      List.foldlM stepCode st es = List.foldlM stepSpec st es := by
  intro es
  induction es with
  | nil => intro k st _ _; rfl
  | cons e es ih =>
    intro k st hst hwf
    simp only [wfLevels, Bool.and_eq_true, decide_eq_true_eq] at hwf
    obtain ⟨⟨h1, h2⟩, hwf⟩ := hwf
    obtain ⟨heq, st2, hstep, hlv2⟩ := step_code_eq_spec hst h1 h2
    rw [List.foldlM_cons, List.foldlM_cons, ← heq, hstep]
    simpa using ih e.level st2 hlv2 hwf

/-- C9 (amended): on every entry list whose level sequence is
well-formed — first entry at level 1, each level at least 1 and at most
one deeper than its predecessor — the tree `export_toc_to_xml` builds
with its stack-length pop loop is exactly the tree built by the spec's
pop-while-top-level-≥-entry-level algorithm. -/
theorem stack_build_matches_spec_on_wf (es : List TocEntry)
    (h : wfLevels 0 es = true) :
    rebuildCode es = rebuildSpec es := by
  rw [rebuildCode, rebuildSpec, foldlM_code_eq_spec es 0 [rootFrame] rfl h]

/-- Witness for C9 on a well-formed four-entry outline that climbs,
stays level and returns. -/
theorem stack_build_matches_spec_on_wf_witness :
    rebuildCode [⟨1, "a", 1⟩, ⟨2, "b", 2⟩, ⟨2, "c", 3⟩, ⟨1, "d", 4⟩] =
      rebuildSpec [⟨1, "a", 1⟩, ⟨2, "b", 2⟩, ⟨2, "c", 3⟩, ⟨1, "d", 4⟩] :=
  stack_build_matches_spec_on_wf
    [⟨1, "a", 1⟩, ⟨2, "b", 2⟩, ⟨2, "c", 3⟩, ⟨1, "d", 4⟩] (by decide)

/-- Counterexample to C9 as frozen: on the outline `[(2,a),(2,b)]` —
whose first level is not 1 — the source's stack-length loop nests `b`
under `a` (one root), while the spec's pop-while-level-≥ algorithm makes
them siblings (two roots). -/
theorem stack_build_counterexample :
    rebuildCode [⟨2, "a", 1⟩, ⟨2, "b", 2⟩] ≠
      rebuildSpec [⟨2, "a", 1⟩, ⟨2, "b", 2⟩] := by
  intro h
  have h2 := congrArg (Option.map List.length) h
  exact absurd h2 (by decide)

/-! ## The chapter-7 example, the staleness sweep, the retry policy and
the explanatory-note detector -/

/-- Counterexample to C3 as frozen: the triple parses exactly as claimed
and the translated bare title is re-attached after the deterministic
prefix, but the `chapter` branch of the prefix formatter renders
`第07章` with no inner spaces, so the finalized line is
`第07章 分布式共识` and not `第 07 章 分布式共识`. -/
theorem chapter7_finalize_counterexample :
    parse_toc_triple "Chapter 7: Distributed Consensus" =
      ("chapter", "7", "Distributed Consensus") ∧
    computeSlot (fun _ _ => "分布式共识") (fun _ => none) 0
      "Chapter 7: Distributed Consensus" ≠ some "第 07 章 分布式共识" := by
  constructor
  · decide
  · decide

/-- C3 (amended): `"Chapter 7: Distributed Consensus"` parses to
`("chapter", "7", "Distributed Consensus")`; with the translation of the
bare title being `"分布式共识"`, the deterministic prefix is `第07章` and
the finalized line is exactly `第07章 分布式共识`. -/
theorem chapter7_finalize :
    parse_toc_triple "Chapter 7: Distributed Consensus" =
      ("chapter", "7", "Distributed Consensus") ∧
    fmtPfx "chapter" "7" = "第07章" ∧
    computeSlot (fun _ _ => "分布式共识") (fun _ => none) 0
      "Chapter 7: Distributed Consensus" = some "第07章 分布式共识" :=
  ⟨by decide, by decide, by decide⟩

/-- C4: if at least one of the four control artifacts exists with an age
beyond the staleness window, `build_files_config` deletes all four
control artifacts — the still-fresh ones included (and the output XML as
well), never only the stale subset. -/
theorem staleness_sweep_all_or_nothing (st : ArtifactState)
    (h : (∃ a, st.toc_xml = some a ∧ HOURS_RECENT < a) ∨
         (∃ a, st.content = some a ∧ HOURS_RECENT < a) ∨
         (∃ a, st.promptF = some a ∧ HOURS_RECENT < a) ∨
         (∃ a, st.translation = some a ∧ HOURS_RECENT < a)) :
    build_files_config st = ⟨none, none, none, none, none⟩ := by
  have hone : ∀ (f : Option Nat) (a : Nat), f = some a → HOURS_RECENT < a →
      (f.isSome && ! is_file_recent f) = true := by
    intro f a hf ha
    subst hf
    simp [is_file_recent]
    omega
  have hcond :
      ([st.toc_xml, st.content, st.promptF, st.translation].any
        (fun f => f.isSome && ! is_file_recent f)) = true := by
    rcases h with ⟨a, hf, ha⟩ | ⟨a, hf, ha⟩ | ⟨a, hf, ha⟩ | ⟨a, hf, ha⟩
    · exact List.any_eq_true.mpr ⟨st.toc_xml, by simp, hone _ a hf ha⟩
    · exact List.any_eq_true.mpr ⟨st.content, by simp, hone _ a hf ha⟩
    · exact List.any_eq_true.mpr ⟨st.promptF, by simp, hone _ a hf ha⟩
    · exact List.any_eq_true.mpr ⟨st.translation, by simp, hone _ a hf ha⟩
  unfold build_files_config
  dsimp only
  rw [if_pos hcond]

/-- Witness for C4: only the translation file (age 2500 h) exceeds the
2400 h window; the sweep still deletes everything. -/
theorem staleness_sweep_all_or_nothing_witness :
    build_files_config ⟨some 1, some 2, some 3, some 2500, some 7⟩ =
      ⟨none, none, none, none, none⟩ :=
  staleness_sweep_all_or_nothing ⟨some 1, some 2, some 3, some 2500, some 7⟩
    (Or.inr (Or.inr (Or.inr ⟨2500, rfl, by decide⟩)))

/-- C5: the network call makes at most `MAX_RETRIES` attempts with a
fixed 3-second delay between attempts, absorbs every raised exception
(the oracle's `none` outcomes) instead of propagating it — `ollama_chat`
is a total function into `String` — and returns the empty string on
exhaustion; the finalize step then treats the empty response as
untranslated and the finalized slot echoes the (cleaned) original text
instead of being left empty. -/
theorem retry_bounded_empty_fallback :
    (∀ att : Nat → Option String, (ollama_chat att).2.1 ≤ MAX_RETRIES ∧
      (ollama_chat att).2.2 = List.replicate ((ollama_chat att).2.1 - 1) 3) ∧
    (∀ att : Nat → Option String, (∀ i, i < MAX_RETRIES → att i = none) →
      (ollama_chat att).1 = "") ∧
    (∀ (ds : String → Option String) (i : Nat) (line : String),
      (parse_toc_triple (pyStrip line)).2.1 = "" →
      computeSlot (fun _ _ => "") ds i line =
        some (pyStrip (pyRstripDot (deep_clean_title (pyStrip line))))) := by
  refine ⟨?_, ?_, ?_⟩
  · intro att
    cases h0 : att 0 <;> cases h1 : att 1 <;> cases h2 : att 2 <;>
      simp [ollama_chat, chatGo, MAX_RETRIES, h0, h1, h2]
  · intro att hfail
    have h0 := hfail 0 (by decide)
    have h1 := hfail 1 (by decide)
    have h2 := hfail 2 (by decide)
    simp [ollama_chat, chatGo, MAX_RETRIES, h0, h1, h2]
  · intro ds i line hnum
    have hnote := note_empty_trans_false (pyStrip line)
    have hmknil : pyStrip "" = "" := rfl
    unfold computeSlot
    dsimp only
    rw [if_pos hnum, hnote]
    simp [strOr, hmknil]

/-- Witness for C5: an oracle failing on all three attempts, and the
echo behaviour of a structure-free line. -/
theorem retry_bounded_empty_fallback_witness :
    (ollama_chat (fun _ => none)).2.1 ≤ MAX_RETRIES ∧
    (ollama_chat (fun _ => none)).1 = "" ∧
    computeSlot (fun _ _ => "") (fun _ => none) 5 "Hello World" =
      some (pyStrip (pyRstripDot (deep_clean_title (pyStrip "Hello World")))) :=
  ⟨(retry_bounded_empty_fallback.1 (fun _ => none)).1,
   retry_bounded_empty_fallback.2.1 (fun _ => none) (fun _ _ => rfl),
   retry_bounded_empty_fallback.2.2 (fun _ => none) 5 "Hello World" (by decide)⟩

theorem replaceNl_of_no_newline (trans : String)
    (h : containsNl trans = false) : replaceNl trans = trans := by
  unfold containsNl at h
  have hmem : ¬ ('\n' ∈ trans.data) := by simpa using h
  show String.mk (trans.data.map (fun c => if c = '\n' then ' ' else c)) = trans
  have hdata : trans.data.map (fun c => if c = '\n' then ' ' else c) = trans.data := by
    refine (List.map_congr_left ?_).trans (List.map_id _)
    intro c hc
    have : ¬ c = '\n' := fun he => hmem (he ▸ hc)
    simp [this]
  rw [hdata]

/-- C8: a single-line source (here `"Dressing for Success"`) whose
translation spans two lines and carries `注：` is flagged truthy —
triggering escalation to the secondary backend — while a single-line
translation matching none of the indicator patterns is flagged
`False`. -/
theorem explanatory_note_detection :
    (∀ trans : String, containsNl trans = true → containsSub trans "注：" = true →
      noteTruthy (has_explanatory_note "Dressing for Success" trans) = true) ∧
    (∀ src trans : String, containsNl trans = false →
      has_explanatory_note_re trans = false →
      has_explanatory_note src trans = NoteResult.b false) := by
  constructor
  · intro trans hnl _
    have hsrc : containsNl "Dressing for Success" = false := by decide
    simp [has_explanatory_note, hsrc, hnl, noteTruthy]
  · intro src trans hnl hre
    have hrepl := replaceNl_of_no_newline trans hnl
    simp [has_explanatory_note, hnl, hrepl, hre]

/-- Witness for C8: the two behaviours at concrete translations. -/
theorem explanatory_note_detection_witness :
    noteTruthy (has_explanatory_note "Dressing for Success"
      "仪表礼仪\n\n注：根据上下文") = true ∧
    has_explanatory_note "Anything" "你好世界" = NoteResult.b false :=
  ⟨explanatory_note_detection.1 "仪表礼仪\n\n注：根据上下文" (by decide) (by decide),
   explanatory_note_detection.2 "Anything" "你好世界" (by decide) (by decide)⟩

/-- C10: on a single-line source and a single-line translation that
matches an indicator pattern, `has_explanatory_note` returns the
`has_explained_content_llm` function object itself, uncalled — a truthy
non-boolean value, distinct from every embedded `bool` — so escalation
fires on the substring match alone and the LLM-based semantic
arbitration is never actually invoked. -/
theorem note_returns_llm_function (src trans : String)
    (_hs : containsNl src = false) (ht : containsNl trans = false)
    (hre : has_explanatory_note_re trans = true) :
    has_explanatory_note src trans = NoteResult.llmFunc ∧
    noteTruthy (has_explanatory_note src trans) = true ∧
    (∀ b : Bool, has_explanatory_note src trans ≠ NoteResult.b b) := by
  have hrepl := replaceNl_of_no_newline trans ht
  have hmain : has_explanatory_note src trans = NoteResult.llmFunc := by
    simp [has_explanatory_note, ht, hrepl, hre]
  refine ⟨hmain, by rw [hmain]; rfl, fun b => by
    rw [hmain]
    exact fun h => NoteResult.noConfusion h⟩

/-- Witness for C10: a translation containing the indicator `根据`. -/
theorem note_returns_llm_function_witness :
    has_explanatory_note "src" "根据上下文翻译" = NoteResult.llmFunc ∧
    noteTruthy (has_explanatory_note "src" "根据上下文翻译") = true :=
  ⟨(note_returns_llm_function "src" "根据上下文翻译"
      (by decide) (by decide) (by decide)).1,
   (note_returns_llm_function "src" "根据上下文翻译"
      (by decide) (by decide) (by decide)).2.1⟩

end PdfToc

